import Mathlib

/-!
Shallow embedding of the agent-routing and conversation-store core of a
webhook-driven customer-service chatbot.

Python strings are modelled as `List Char`; Python exceptions as the
`Except` monad with a string payload; `dict` as association lists with
first-match lookup and in-place overwrite.
-/

deriving instance DecidableEq for Except

/-- Python `str`, modelled as a list of characters. -/
abbrev Str := List Char

/-- A raised Python exception (its textual payload). -/
abbrev Exn := Str

/-- Embeds `AgentResponse` from `app/agents/base_agent.py`: `content : str`,
`confidence : float`.  The float confidences used by the program (0.0, 0.9,
1.0) are represented exactly as rationals. -/
structure AgentResponse where
  content : Str
  confidence : Rat
deriving DecidableEq

/-- An agent, identified with its `process(user_id, message)` method, which
either returns an `AgentResponse` or raises. -/
abbrev Agent := Str → Str → Except Exn AgentResponse

/-- The router's registry `self.agents : Dict[str, BaseAgent]`. -/
abbrev Registry := List (Str × Agent)

/-- Python `dict` lookup (`d.get(k)` / `d[k]` / `k in d`) on an association
list: first matching key wins. -/
def alookup {α β : Type} [DecidableEq α] : List (α × β) → α → Option β
  | [], _ => none
  | (k', v) :: rest, k => if k = k' then some v else alookup rest k

/-- Python `dict` assignment `d[k] = v`: overwrites the first entry with key
`k` in place, otherwise appends a new entry (insertion order preserved). -/
def aset {α β : Type} [DecidableEq α] : List (α × β) → α → β → List (α × β)
  | [], k, v => [(k, v)]
  | (k', v') :: rest, k, v =>
    if k = k' then (k, v) :: rest else (k', v') :: aset rest k v

/-- The override command literal `"/agent "` tested by
`message.startswith("/agent ")` in `AgentService.process_message`. -/
def agentCmdText : Str := "/agent ".data

/-- The fixed reply `f"找不到 Agent: {agent_id}"` for an unknown explicit
agent id. -/
def agentNotFoundText (agentId : Str) : Str := "找不到 Agent: ".data ++ agentId

/-- The fixed reply for a malformed override command. -/
def badFormatText : Str := "命令格式不正確。請使用 /agent \x7bagent_id\x7d \x7b訊息\x7d".data

/-- The fixed apology returned when the default (or echo) agent raises. -/
def routerApologyText : Str := "抱歉，處理您的訊息時發生錯誤。".data

/-- The fixed reply when neither the default nor the echo agent is
registered. -/
def noAgentsText : Str := "抱歉，目前沒有可用的 Agent。".data

/-- The hardcoded default agent id in `AgentService.process_message`. -/
def agnoId : Str := "agno".data

/-- The fallback agent id in `AgentService.process_message`. -/
def echoId : Str := "echo".data

/-- Python `s.split(" ", 1)` restricted to its two outcomes: `none` when `s`
contains no space (Python returns the one-element list `[s]`), otherwise the
pair of the parts before and after the first space. -/
def splitFirst : Str → Option (Str × Str)
  | [] => none
  | c :: rest =>
    if c = ' ' then some ([], rest)
    else
      match splitFirst rest with
      | none => none
      | some (a, b) => some (c :: a, b)

/-- Embeds `AgentService.process_message` from
`app/services/agent_service.py`.  The explicit-override branch performs the
agent call with no surrounding `try`, so an exception there propagates
(`Except.error`); the default/echo branches wrap the call in
`try/except` and degrade to `routerApologyText`. -/
def processMessage (agents : Registry) (userId message : Str) : Except Exn Str :=
  if message.take 7 = agentCmdText then
    match splitFirst (message.drop 7) with
    | some (agentId, actualMessage) =>
      match alookup agents agentId with
      | some agent =>
        match agent userId actualMessage with
        | Except.ok response => Except.ok response.content
        | Except.error e => Except.error e
      | none => Except.ok (agentNotFoundText agentId)
    | none => Except.ok badFormatText
  else
    match alookup agents agnoId with
    | some agent =>
      match agent userId message with
      | Except.ok response => Except.ok response.content
      | Except.error _ => Except.ok routerApologyText
    | none =>
      match alookup agents echoId with
      | some agent =>
        match agent userId message with
        | Except.ok response => Except.ok response.content
        | Except.error _ => Except.ok routerApologyText
      | none => Except.ok noAgentsText

/-- Embeds `EchoAgent.process` from `app/agents/echo_agent.py`. -/
def echoProcess : Agent := fun _ message =>
  Except.ok { content := "Echo: ".data ++ message, confidence := 1 }

/-- The backend call `self.agent.run(message, user_id=user_id,
session_id=user_id)` of the Agno agent, taking the message and the user id
(which also serves as the session id) and either returning the response
content or raising. -/
abbrev AgnoBackend := Str → Str → Except Exn Str

/-- The fixed not-ready reply of `SimpleAgnoAgent.process`. -/
def agnoNotReadyText : Str := "Agent 尚未初始化完成，請稍後再試".data

/-- The fixed failure reply of `SimpleAgnoAgent.process`. -/
def agnoFailText : Str := "抱歉，處理您的請求時發生錯誤，請稍後再試".data

/-- Embeds `SimpleAgnoAgent.process` from `app/agents/simple_agno_agent.py`.
`backend = none` models `self.agent is None` (client construction failed or
not attempted); the `try/except` around the backend call maps any raised
exception to the fixed low-confidence apology. -/
def agnoProcess (backend : Option AgnoBackend) : Agent := fun userId message =>
  match backend with
  | none => Except.ok { content := agnoNotReadyText, confidence := 0 }
  | some run =>
    match run message userId with
    | Except.ok content => Except.ok { content := content, confidence := 9/10 }
    | Except.error _ => Except.ok { content := agnoFailText, confidence := 0 }

/-- The sender role literal type `Literal["user", "bot", "agent"]` from
`app/models/conversation.py`. -/
inductive SenderType where
  | user
  | bot
  | agent
deriving DecidableEq

/-- The conversation status literal type `Literal["active", "closed"]`. -/
inductive ConvStatus where
  | active
  | closed
deriving DecidableEq

/-- Embeds `Message` from `app/models/conversation.py`.  Generated uuids are
modelled by a monotone counter (`Store.nextId`), timestamps by a monotone
clock (`Store.time`). -/
structure Message where
  id : Nat
  conversationId : Nat
  content : Str
  sender : SenderType
  timestamp : Nat
deriving DecidableEq

/-- Embeds `Conversation` from `app/models/conversation.py`. -/
structure Conversation where
  id : Nat
  userId : Str
  startTime : Nat
  endTime : Option Nat
  status : ConvStatus
  messages : List Message
deriving DecidableEq

/-- Embeds `MemoryStorage` from `app/utils/storage.py`, extended with the
fresh-uuid supply `nextId` and the clock `time` that model the external
`uuid4()` and `datetime.now()` generators. -/
structure Store where
  conversations : List (Nat × Conversation)
  userConversations : List (Str × List Nat)
  nextId : Nat
  time : Nat
deriving DecidableEq

/-- Embeds `MemoryStorage.create_conversation`: allocates a fresh active
conversation, registers it in `conversations`, and appends its id to the
user's list (creating the list first when the user is unknown). -/
def createConversation (s : Store) (userId : Str) : Conversation × Store :=
  let conv : Conversation :=
    { id := s.nextId, userId := userId, startTime := s.time,
      endTime := none, status := ConvStatus.active, messages := [] }
  let ulist := (alookup s.userConversations userId).getD []
  (conv,
    { conversations := aset s.conversations conv.id conv,
      userConversations := aset s.userConversations userId (ulist ++ [conv.id]),
      nextId := s.nextId + 1,
      time := s.time + 1 })

/-- Embeds `MemoryStorage.get_conversation`. -/
def getConversation (s : Store) (conversationId : Nat) : Option Conversation :=
  alookup s.conversations conversationId

/-- The loop `for conv_id in reversed(...)` of
`MemoryStorage.get_active_conversation`: the first id in the given order
whose conversation exists and is active. -/
def findActive (s : Store) : List Nat → Option Conversation
  | [] => none
  | conversationId :: rest =>
    match alookup s.conversations conversationId with
    | some conv =>
      if conv.status = ConvStatus.active then some conv else findActive s rest
    | none => findActive s rest

/-- Embeds `MemoryStorage.get_active_conversation`: scans the user's ids in
reverse creation order for an active conversation and creates a new one when
none is found. -/
def getActiveConversation (s : Store) (userId : Str) : Conversation × Store :=
  match alookup s.userConversations userId with
  | some l =>
    match findActive s l.reverse with
    | some conv => (conv, s)
    | none => createConversation s userId
  | none => createConversation s userId

/-- Embeds `MemoryStorage.add_message` together with
`Conversation.add_message`: appends a fresh `Message` to the named
conversation when it exists, returning `none` and leaving the store
untouched otherwise. -/
def addMessage (s : Store) (conversationId : Nat) (content : Str)
    (sender : SenderType) : Option Message × Store :=
  match getConversation s conversationId with
  | none => (none, s)
  | some conv =>
    let msg : Message :=
      { id := s.nextId, conversationId := conv.id, content := content,
        sender := sender, timestamp := s.time }
    let conv' := { conv with messages := conv.messages ++ [msg] }
    (some msg,
      { s with conversations := aset s.conversations conversationId conv',
               nextId := s.nextId + 1, time := s.time + 1 })

/-- Embeds `MemoryStorage.close_conversation` together with
`Conversation.close`: sets the status to closed and stamps the end time. -/
def closeConversation (s : Store) (conversationId : Nat) : Bool × Store :=
  match getConversation s conversationId with
  | none => (false, s)
  | some conv =>
    let conv' := { conv with status := ConvStatus.closed, endTime := some s.time }
    (true,
      { s with conversations := aset s.conversations conversationId conv',
               time := s.time + 1 })

/-- Embeds `MemoryStorage.get_user_conversations`: the user's conversations
in the order of the user's id list, skipping ids missing from the map. -/
def getUserConversations (s : Store) (userId : Str) : List Conversation :=
  match alookup s.userConversations userId with
  | none => []
  | some l => l.filterMap (alookup s.conversations)

/-- One public Conversation Store operation, for quantifying over call
sequences. -/
inductive StoreOp where
  | create (userId : Str)
  | getActive (userId : Str)
  | addMsg (conversationId : Nat) (content : Str) (sender : SenderType)
  | close (conversationId : Nat)
  | getUser (userId : Str)
deriving DecidableEq

/-- The effect of one store operation on the store state. -/
def applyOp (s : Store) : StoreOp → Store
  | StoreOp.create u => (createConversation s u).2
  | StoreOp.getActive u => (getActiveConversation s u).2
  | StoreOp.addMsg cid content sender => (addMessage s cid content sender).2
  | StoreOp.close cid => (closeConversation s cid).2
  | StoreOp.getUser _ => s

/-- The store as constructed by `MemoryStorage.__init__`. -/
def emptyStore : Store :=
  { conversations := [], userConversations := [], nextId := 0, time := 0 }

/-- Runs a sequence of store operations. -/
def runOps (s : Store) (ops : List StoreOp) : Store := ops.foldl applyOp s

/-- Whether the id names a conversation of the store whose status is
active. -/
def isActiveConv (s : Store) (conversationId : Nat) : Bool :=
  match alookup s.conversations conversationId with
  | some conv => decide (conv.status = ConvStatus.active)
  | none => false

/-- The claimed store invariant: each user's conversation list holds at most
one active conversation. -/
def AtMostOneActive (s : Store) : Prop :=
  ∀ u l, alookup s.userConversations u = some l →
    (l.filter (isActiveConv s)).length ≤ 1

/-- Structural store invariant: ids are bounded by the fresh-id supply, every
registered id resolves to a conversation keyed by its own id and owned by
the registering user, and each user's list is strictly increasing (creation
order). -/
structure StoreInv (s : Store) : Prop where
  conv_key : ∀ cid conv, alookup s.conversations cid = some conv →
    conv.id = cid ∧ cid < s.nextId
  user_bound : ∀ u l, alookup s.userConversations u = some l →
    ∀ cid, cid ∈ l → cid < s.nextId
  user_owns : ∀ u l, alookup s.userConversations u = some l →
    ∀ cid, cid ∈ l →
      ∃ conv, alookup s.conversations cid = some conv ∧ conv.userId = u
  user_sorted : ∀ u l, alookup s.userConversations u = some l →
    l.Chain' (· < ·)

/-- `AgentService.process_message` paired with the store it runs beside: the
method body contains no reference to `memory_storage`, so its action on the
store state is the identity, made explicit here so that theorems can speak
about the store across a routing call. -/
def processMessageWithStore (agents : Registry) (s : Store)
    (userId message : Str) : Except Exn Str × Store :=
  (processMessage agents userId message, s)

theorem alookup_aset_self {α β : Type} [DecidableEq α] (m : List (α × β))
    (k : α) (v : β) : alookup (aset m k v) k = some v := by
  induction m with
  | nil => simp [aset, alookup]
  | cons p rest ih =>
    obtain ⟨k₀, v₀⟩ := p
    by_cases h : k = k₀
    · simp [aset, alookup, h]
    · simp [aset, alookup, h, ih]

theorem alookup_aset_ne {α β : Type} [DecidableEq α] (m : List (α × β))
    {k k' : α} (v : β) (h : k' ≠ k) :
    alookup (aset m k v) k' = alookup m k' := by
  induction m with
  | nil => simp [aset, alookup, h]
  | cons p rest ih =>
    obtain ⟨k₀, v₀⟩ := p
    by_cases h₀ : k = k₀
    · subst h₀
      simp [aset, alookup, h, ih]
    · by_cases h₁ : k' = k₀ <;> simp [aset, alookup, h₀, h₁, ih]

theorem splitFirst_eq_none {w : Str} (h : ' ' ∉ w) : splitFirst w = none := by
  induction w with
  | nil => rfl
  | cons c rest ih =>
    have hc : ¬(c = ' ') := fun e => h (e ▸ List.mem_cons_self c rest)
    have ih' := ih (fun hm => h (List.mem_cons_of_mem c hm))
    simp [splitFirst, hc, ih']

theorem splitFirst_token {a : Str} (m : Str) (h : ' ' ∉ a) :
    splitFirst (a ++ ' ' :: m) = some (a, m) := by
  induction a with
  | nil => simp [splitFirst]
  | cons c rest ih =>
    have hc : ¬(c = ' ') := fun e => h (e ▸ List.mem_cons_self c rest)
    have ih' := ih (fun hm => h (List.mem_cons_of_mem c hm))
    simp [splitFirst, hc, ih']

theorem take7_cmd (rest : Str) : (agentCmdText ++ rest).take 7 = agentCmdText := rfl

theorem drop7_cmd (rest : Str) : (agentCmdText ++ rest).drop 7 = rest := rfl

/-- Claim C1, counterexample: the claim quantifies over every registered
agent id, but an id containing a space is split by the first-space parse.
With the id `"x y"` registered (and `"x"` not), the override command for it
returns the agent-not-found reply for `"x"` instead of the echo agent's
processed content. -/
theorem c1_counterexample :
    alookup [("x y".data, echoProcess)] "x y".data = some echoProcess ∧
    echoProcess "u".data "hi".data =
      Except.ok { content := "Echo: hi".data, confidence := 1 } ∧
    processMessage [("x y".data, echoProcess)] "u".data
        (agentCmdText ++ ("x y".data ++ ' ' :: "hi".data)) =
      Except.ok (agentNotFoundText "x".data) ∧
    agentNotFoundText "x".data ≠ "Echo: hi".data :=
  ⟨rfl, by decide, by decide, by decide⟩

/-- Claim C1 (amended to registered agent ids containing no space): the
override command `"/agent a m"` routes to exactly the agent registered under
`a`, handing it the remainder `m` verbatim — regardless of which other
agents (default or fallback) are registered, and with no re-parsing of `m`
as a command. -/
theorem c1_agent_override (agents : Registry) (u a m : Str) (agent : Agent)
    (hs : ' ' ∉ a) (hr : alookup agents a = some agent) (r : AgentResponse)
    (hp : agent u m = Except.ok r) :
    processMessage agents u (agentCmdText ++ (a ++ ' ' :: m)) =
      Except.ok r.content := by
  simp [processMessage, take7_cmd, drop7_cmd, splitFirst_token m hs, hr, hp]

/-- Concrete instance of `c1_agent_override`. -/
theorem c1_witness :
    processMessage [(echoId, echoProcess)] "u".data
        (agentCmdText ++ ("echo".data ++ ' ' :: "hi".data)) =
      Except.ok ("Echo: hi".data) :=
  c1_agent_override [(echoId, echoProcess)] "u".data "echo".data "hi".data
    echoProcess (by decide) rfl
    { content := "Echo: hi".data, confidence := 1 } rfl

/-- Claim C2, counterexample: the defensive `try/except` only surrounds the
default-routing path.  An exception raised by an explicitly overridden agent
propagates out of `process_message` to the caller. -/
theorem c2_counterexample :
    processMessage [("boom".data, fun _ _ => Except.error "kaput".data)]
        "u".data "/agent boom hi".data = Except.error "kaput".data ∧
    ("/agent boom hi".data).take 7 = agentCmdText :=
  ⟨by decide, by decide⟩

/-- Claim C2 (amended to non-override messages): on the default-routing path
the router never propagates an exception; every non-override message yields
a normal string reply. -/
theorem c2_router_no_raise (agents : Registry) (u m : Str)
    (h : ¬(m.take 7 = agentCmdText)) :
    ∃ reply, processMessage agents u m = Except.ok reply := by
  cases ha : alookup agents agnoId with
  | some agent =>
    cases hp : agent u m with
    | ok r => exact ⟨r.content, by simp [processMessage, h, ha, hp]⟩
    | error e => exact ⟨routerApologyText, by simp [processMessage, h, ha, hp]⟩
  | none =>
    cases he : alookup agents echoId with
    | some agent =>
      cases hp : agent u m with
      | ok r => exact ⟨r.content, by simp [processMessage, h, ha, he, hp]⟩
      | error e =>
        exact ⟨routerApologyText, by simp [processMessage, h, ha, he, hp]⟩
    | none => exact ⟨noAgentsText, by simp [processMessage, h, ha, he]⟩

/-- Concrete instance of `c2_router_no_raise`. -/
theorem c2_witness :
    ∃ reply, processMessage [] "u".data "hi".data = Except.ok reply :=
  c2_router_no_raise [] _ _ (by decide)

/-- Claim C3: a message without the override prefix is routed to the default
agent id `"agno"` when registered (its successful content returned verbatim,
a raised exception degraded to the fixed apology), else to `"echo"` under
the same contract, and with neither registered the fixed no-agents reply is
returned. -/
theorem c3_default_routing (agents : Registry) (u m : Str)
    (h : ¬(m.take 7 = agentCmdText)) :
    (∀ agent, alookup agents agnoId = some agent →
      (∀ r, agent u m = Except.ok r →
        processMessage agents u m = Except.ok r.content) ∧
      (∀ e, agent u m = Except.error e →
        processMessage agents u m = Except.ok routerApologyText)) ∧
    (alookup agents agnoId = none →
      (∀ agent, alookup agents echoId = some agent →
        (∀ r, agent u m = Except.ok r →
          processMessage agents u m = Except.ok r.content) ∧
        (∀ e, agent u m = Except.error e →
          processMessage agents u m = Except.ok routerApologyText)) ∧
      (alookup agents echoId = none →
        processMessage agents u m = Except.ok noAgentsText)) := by
  refine ⟨fun agent ha => ⟨fun r hr => ?_, fun e he => ?_⟩, fun ha => ⟨fun agent he => ⟨fun r hr => ?_, fun e her => ?_⟩, fun he => ?_⟩⟩
  · simp [processMessage, h, ha, hr]
  · simp [processMessage, h, ha, he]
  · simp [processMessage, h, ha, he, hr]
  · simp [processMessage, h, ha, he, her]
  · simp [processMessage, h, ha, he]

/-- Concrete instance of `c3_default_routing`. -/
theorem c3_witness :
    processMessage [] "u".data "hi".data = Except.ok noAgentsText :=
  ((c3_default_routing [] _ _ (by decide)).2 rfl).2 rfl

/-- Claim C5: the echo agent always returns its echoed response, the Agno
agent with no constructed client returns the fixed not-ready response with
confidence 0, a raising backend is degraded to the fixed apologetic response
with confidence 0, and neither variant's `process` ever raises. -/
theorem c5_agents_never_raise :
    (∀ u m, echoProcess u m =
      Except.ok { content := "Echo: ".data ++ m, confidence := 1 }) ∧
    (∀ u m, agnoProcess none u m =
      Except.ok { content := agnoNotReadyText, confidence := 0 }) ∧
    (∀ (run : AgnoBackend) u m e, run m u = Except.error e →
      agnoProcess (some run) u m =
        Except.ok { content := agnoFailText, confidence := 0 }) ∧
    (∀ (backend : Option AgnoBackend) u m, ∃ r,
      agnoProcess backend u m = Except.ok r) := by
  refine ⟨fun u m => rfl, fun u m => rfl, ?_, ?_⟩
  · intro run u m e he
    simp [agnoProcess, he]
  · intro backend u m
    cases backend with
    | none => exact ⟨_, rfl⟩
    | some run =>
      cases hr : run m u with
      | ok c =>
        exact ⟨{ content := c, confidence := 9/10 }, by simp [agnoProcess, hr]⟩
      | error e =>
        exact ⟨{ content := agnoFailText, confidence := 0 },
          by simp [agnoProcess, hr]⟩

/-- Concrete instance of `c5_agents_never_raise`. -/
theorem c5_witness :
    agnoProcess (some (fun _ _ => Except.error "boom".data)) "u".data "m".data
      = Except.ok { content := agnoFailText, confidence := 0 } :=
  c5_agents_never_raise.2.2.1 _ _ _ "boom".data rfl

/-- Claim C7: each routing failure yields its own fixed reply — unknown
explicit agent id (with the Conversation Store left untouched, the routing
method performing no storage operation), malformed override command, and an
empty registry on the default path. -/
theorem c7_routing_failures (agents : Registry) (u : Str) :
    (∀ (st : Store) (x rest : Str), ' ' ∉ x → alookup agents x = none →
      processMessageWithStore agents st u (agentCmdText ++ (x ++ ' ' :: rest)) =
        (Except.ok (agentNotFoundText x), st)) ∧
    (∀ w, ' ' ∉ w →
      processMessage agents u (agentCmdText ++ w) = Except.ok badFormatText) ∧
    (∀ m, ¬(m.take 7 = agentCmdText) →
      processMessage [] u m = Except.ok noAgentsText) := by
  refine ⟨fun st x rest hx hl => ?_, fun w hw => ?_, fun m hm => ?_⟩
  · simp [processMessageWithStore, processMessage, take7_cmd, drop7_cmd,
      splitFirst_token rest hx, hl]
  · simp [processMessage, take7_cmd, drop7_cmd, splitFirst_eq_none hw]
  · simp [processMessage, hm, alookup]

/-- Concrete instance of `c7_routing_failures`. -/
theorem c7_witness :
    processMessageWithStore [] emptyStore "u".data
        (agentCmdText ++ ("nope".data ++ ' ' :: "hi".data)) =
      (Except.ok (agentNotFoundText "nope".data), emptyStore) :=
  (c7_routing_failures [] "u".data).1 emptyStore _ _ (by decide) rfl

theorem createConversation_fst (s : Store) (u : Str) :
    (createConversation s u).1 =
      { id := s.nextId, userId := u, startTime := s.time, endTime := none,
        status := ConvStatus.active, messages := [] } := rfl

theorem createConversation_snd (s : Store) (u : Str) :
    (createConversation s u).2 =
      { conversations := aset s.conversations s.nextId (createConversation s u).1,
        userConversations := aset s.userConversations u
          (((alookup s.userConversations u).getD []) ++ [s.nextId]),
        nextId := s.nextId + 1,
        time := s.time + 1 } := rfl

/-- Claim C9: `add_message` on a conversation id absent from the store
returns `none` and leaves the whole store state (hence every conversation's
message list) unchanged; the embedding is a total function, reflecting that
the source path raises nothing. -/
theorem c9_add_message_unknown (s : Store) (cid : Nat) (content : Str)
    (sender : SenderType) (h : alookup s.conversations cid = none) :
    addMessage s cid content sender = (none, s) := by
  simp [addMessage, getConversation, h]

/-- Concrete instance of `c9_add_message_unknown`. -/
theorem c9_witness :
    addMessage emptyStore 0 "hi".data SenderType.user = (none, emptyStore) :=
  c9_add_message_unknown emptyStore 0 "hi".data SenderType.user rfl

/-- Claim C6: from any store state, creating a conversation for `u` and
adding a user message then a bot message to it makes
`get_active_conversation u` return that very conversation, now holding
exactly those two messages in call order with those sender roles. -/
theorem c6_conversation_roundtrip (s : Store) (u m1 m2 : Str) :
    (getActiveConversation
        ((addMessage
          ((addMessage (createConversation s u).2
            (createConversation s u).1.id m1 SenderType.user).2)
          (createConversation s u).1.id m2 SenderType.bot).2) u).1.id =
      (createConversation s u).1.id ∧
    (getActiveConversation
        ((addMessage
          ((addMessage (createConversation s u).2
            (createConversation s u).1.id m1 SenderType.user).2)
          (createConversation s u).1.id m2 SenderType.bot).2) u).1.userId = u ∧
    (getActiveConversation
        ((addMessage
          ((addMessage (createConversation s u).2
            (createConversation s u).1.id m1 SenderType.user).2)
          (createConversation s u).1.id m2 SenderType.bot).2) u).1.messages.map
        Message.content = [m1, m2] ∧
    (getActiveConversation
        ((addMessage
          ((addMessage (createConversation s u).2
            (createConversation s u).1.id m1 SenderType.user).2)
          (createConversation s u).1.id m2 SenderType.bot).2) u).1.messages.map
        Message.sender = [SenderType.user, SenderType.bot] := by
  refine ⟨?_, ?_, ?_, ?_⟩ <;>
    simp [createConversation, addMessage, getConversation,
      getActiveConversation, findActive, alookup_aset_self,
      List.reverse_append]

/-- Claim C8: `get_active_conversation` is idempotent — the second of two
consecutive calls returns the same conversation and performs no state change
(in particular it creates no new conversation). -/
theorem c8_get_active_idempotent (s : Store) (u : Str) :
    (getActiveConversation ((getActiveConversation s u).2) u).1 =
      (getActiveConversation s u).1 ∧
    (getActiveConversation ((getActiveConversation s u).2) u).2 =
      (getActiveConversation s u).2 := by
  cases hu : alookup s.userConversations u with
  | none =>
    constructor <;>
      simp [getActiveConversation, hu, createConversation, alookup_aset_self,
        findActive, List.reverse_append]
  | some l =>
    cases hf : findActive s l.reverse with
    | some conv => constructor <;> simp [getActiveConversation, hu, hf]
    | none =>
      constructor <;>
        simp [getActiveConversation, hu, hf, createConversation,
          alookup_aset_self, findActive, List.reverse_append]

theorem chain_lt_append {l : List Nat} {n : Nat} (hc : l.Chain' (· < ·))
    (hb : ∀ x ∈ l, x < n) : (l ++ [n]).Chain' (· < ·) := by
  induction l with
  | nil => simp
  | cons a t ih =>
    cases t with
    | nil =>
      simp only [List.nil_append, List.cons_append, List.chain'_cons,
        List.chain'_singleton, and_true]
      exact hb a (List.mem_cons_self a [])
    | cons b t' =>
      have hab : a < b := (List.chain'_cons.mp hc).1
      have ht := ih (List.chain'_cons.mp hc).2
        (fun x hx => hb x (List.mem_cons_of_mem a hx))
      rw [List.cons_append]
      exact List.chain'_cons.mpr ⟨hab, ht⟩

theorem length_filter_le_of_imp {l : List Nat} {p q : Nat → Bool}
    (h : ∀ x ∈ l, p x = true → q x = true) :
    (l.filter p).length ≤ (l.filter q).length := by
  induction l with
  | nil => simp
  | cons a t ih =>
    have ht := ih (fun x hx => h x (List.mem_cons_of_mem a hx))
    by_cases hp : p a = true
    · have hq := h a (List.mem_cons_self a t) hp
      simp only [List.filter_cons, hp, hq, if_true, List.length_cons]
      exact Nat.succ_le_succ ht
    · by_cases hq : q a = true
      · simp only [List.filter_cons, hp, hq, if_true, if_false,
          List.length_cons]
        exact Nat.le_trans ht (Nat.le_succ _)
      · simp only [List.filter_cons, hp, hq, if_false]
        exact ht

theorem filter_congr_mem {l : List Nat} {p q : Nat → Bool}
    (h : ∀ x ∈ l, p x = q x) : l.filter p = l.filter q := by
  induction l with
  | nil => rfl
  | cons a t ih =>
    have ha := h a (List.mem_cons_self a t)
    have ht := ih (fun x hx => h x (List.mem_cons_of_mem a hx))
    simp only [List.filter_cons, ha, ht]

theorem filter_eq_nil_of_false {l : List Nat} {p : Nat → Bool}
    (h : ∀ x ∈ l, p x = false) : l.filter p = [] := by
  induction l with
  | nil => rfl
  | cons a t ih =>
    have ha := h a (List.mem_cons_self a t)
    have ht := ih (fun x hx => h x (List.mem_cons_of_mem a hx))
    simp only [List.filter_cons, ha, ht, if_neg, Bool.false_eq_true,
      not_false_iff]

theorem findActive_some {s : Store} {l : List Nat} {conv : Conversation}
    (h : findActive s l = some conv) :
    conv.status = ConvStatus.active ∧
    ∃ cid, cid ∈ l ∧ alookup s.conversations cid = some conv := by
  induction l with
  | nil => simp [findActive] at h
  | cons a t ih =>
    cases ha : alookup s.conversations a with
    | some c =>
      by_cases hs : c.status = ConvStatus.active
      · rw [findActive, ha] at h
        simp only [hs, if_true] at h
        cases h
        exact ⟨hs, a, List.mem_cons_self a t, ha⟩
      · rw [findActive, ha] at h
        simp only [hs, if_false] at h
        obtain ⟨h1, cid, h2, h3⟩ := ih h
        exact ⟨h1, cid, List.mem_cons_of_mem a h2, h3⟩
    | none =>
      rw [findActive, ha] at h
      obtain ⟨h1, cid, h2, h3⟩ := ih h
      exact ⟨h1, cid, List.mem_cons_of_mem a h2, h3⟩

theorem findActive_none {s : Store} {l : List Nat}
    (h : findActive s l = none) : ∀ cid ∈ l, isActiveConv s cid = false := by
  induction l with
  | nil => simp
  | cons a t ih =>
    intro cid hm
    cases ha : alookup s.conversations a with
    | some c =>
      by_cases hs : c.status = ConvStatus.active
      · rw [findActive, ha] at h
        simp [hs] at h
      · rw [findActive, ha] at h
        simp only [hs, if_false] at h
        rcases List.mem_cons.mp hm with rfl | hm'
        · simp [isActiveConv, ha, hs]
        · exact ih h cid hm'
    | none =>
      rw [findActive, ha] at h
      rcases List.mem_cons.mp hm with rfl | hm'
      · simp [isActiveConv, ha]
      · exact ih h cid hm'

theorem inv_empty : StoreInv emptyStore := by
  refine ⟨?_, ?_, ?_, ?_⟩ <;> intro a b h <;> simp [emptyStore, alookup] at h

theorem inv_create {s : Store} (h : StoreInv s) (u : Str) :
    StoreInv (createConversation s u).2 := by
  obtain ⟨hck, hub, huo, hus⟩ := h
  rw [createConversation_snd]
  refine ⟨?_, ?_, ?_, ?_⟩
  · intro cid conv hc
    dsimp only at hc ⊢
    by_cases hcid : cid = s.nextId
    · subst hcid
      rw [alookup_aset_self] at hc
      have he := Option.some.inj hc
      subst he
      exact ⟨rfl, Nat.lt_succ_self _⟩
    · rw [alookup_aset_ne _ _ hcid] at hc
      obtain ⟨h1, h2⟩ := hck cid conv hc
      exact ⟨h1, Nat.lt_succ_of_lt h2⟩
  · intro u' l hl cid hm
    dsimp only at hl ⊢
    by_cases hu' : u' = u
    · subst hu'
      rw [alookup_aset_self] at hl
      have he := Option.some.inj hl
      subst he
      rcases List.mem_append.mp hm with hm0 | hm1
      · cases halo : alookup s.userConversations u' with
        | none => rw [halo] at hm0; simp at hm0
        | some l0 =>
          rw [halo] at hm0
          simp only [Option.getD_some] at hm0
          exact Nat.lt_succ_of_lt (hub _ _ halo cid hm0)
      · have hcid : cid = s.nextId := by simpa using hm1
        subst hcid
        exact Nat.lt_succ_self _
    · rw [alookup_aset_ne _ _ hu'] at hl
      exact Nat.lt_succ_of_lt (hub u' l hl cid hm)
  · intro u' l hl cid hm
    dsimp only at hl ⊢
    by_cases hu' : u' = u
    · subst hu'
      rw [alookup_aset_self] at hl
      have he := Option.some.inj hl
      subst he
      rcases List.mem_append.mp hm with hm0 | hm1
      · cases halo : alookup s.userConversations u' with
        | none => rw [halo] at hm0; simp at hm0
        | some l0 =>
          rw [halo] at hm0
          simp only [Option.getD_some] at hm0
          obtain ⟨conv, hcv, hcu⟩ := huo _ _ halo cid hm0
          have hne : cid ≠ s.nextId := Nat.ne_of_lt (hub _ _ halo cid hm0)
          exact ⟨conv, by rw [alookup_aset_ne _ _ hne]; exact hcv, hcu⟩
      · have hcid : cid = s.nextId := by simpa using hm1
        subst hcid
        exact ⟨(createConversation s u').1, alookup_aset_self _ _ _, rfl⟩
    · rw [alookup_aset_ne _ _ hu'] at hl
      obtain ⟨conv, hcv, hcu⟩ := huo u' l hl cid hm
      have hne : cid ≠ s.nextId := Nat.ne_of_lt (hub u' l hl cid hm)
      exact ⟨conv, by rw [alookup_aset_ne _ _ hne]; exact hcv, hcu⟩
  · intro u' l hl
    dsimp only at hl
    by_cases hu' : u' = u
    · subst hu'
      rw [alookup_aset_self] at hl
      have he := Option.some.inj hl
      subst he
      cases halo : alookup s.userConversations u' with
      | none => simp [halo]
      | some l0 =>
        simp only [Option.getD_some]
        exact chain_lt_append (hus _ _ halo) (fun x hx => hub _ _ halo x hx)
    · rw [alookup_aset_ne _ _ hu'] at hl
      exact hus u' l hl

theorem inv_addMessage {s : Store} (h : StoreInv s) (cid : Nat)
    (content : Str) (sender : SenderType) :
    StoreInv (addMessage s cid content sender).2 := by
  obtain ⟨hck, hub, huo, hus⟩ := h
  cases hc : alookup s.conversations cid with
  | none =>
    have hs : (addMessage s cid content sender).2 = s := by
      simp [addMessage, getConversation, hc]
    rw [hs]
    exact ⟨hck, hub, huo, hus⟩
  | some conv =>
    obtain ⟨hid, hlt⟩ := hck cid conv hc
    have hsnd : (addMessage s cid content sender).2 =
        { s with
          conversations := aset s.conversations cid
            { conv with messages := conv.messages ++
              [{ id := s.nextId, conversationId := conv.id,
                 content := content, sender := sender, timestamp := s.time }] },
          nextId := s.nextId + 1, time := s.time + 1 } := by
      simp [addMessage, getConversation, hc]
    rw [hsnd]
    refine ⟨?_, ?_, ?_, ?_⟩
    · intro cid' conv' hc'
      dsimp only at hc' ⊢
      by_cases hx : cid' = cid
      · subst hx
        rw [alookup_aset_self] at hc'
        have he := Option.some.inj hc'
        subst he
        exact ⟨hid, Nat.lt_succ_of_lt hlt⟩
      · rw [alookup_aset_ne _ _ hx] at hc'
        obtain ⟨h1, h2⟩ := hck cid' conv' hc'
        exact ⟨h1, Nat.lt_succ_of_lt h2⟩
    · intro u l hl cid' hm
      exact Nat.lt_succ_of_lt (hub u l hl cid' hm)
    · intro u l hl cid' hm
      dsimp only at hl ⊢
      obtain ⟨conv0, hcv, hcu⟩ := huo u l hl cid' hm
      by_cases hx : cid' = cid
      · subst hx
        have hconv : conv = conv0 := by
          rw [hc] at hcv
          exact Option.some.inj hcv
        refine ⟨_, alookup_aset_self _ _ _, ?_⟩
        show conv.userId = u
        rw [hconv]
        exact hcu
      · exact ⟨conv0, by rw [alookup_aset_ne _ _ hx]; exact hcv, hcu⟩
    · intro u l hl
      exact hus u l hl

theorem inv_close {s : Store} (h : StoreInv s) (cid : Nat) :
    StoreInv (closeConversation s cid).2 := by
  obtain ⟨hck, hub, huo, hus⟩ := h
  cases hc : alookup s.conversations cid with
  | none =>
    have hs : (closeConversation s cid).2 = s := by
      simp [closeConversation, getConversation, hc]
    rw [hs]
    exact ⟨hck, hub, huo, hus⟩
  | some conv =>
    obtain ⟨hid, hlt⟩ := hck cid conv hc
    have hsnd : (closeConversation s cid).2 =
        { s with
          conversations := aset s.conversations cid
            { conv with status := ConvStatus.closed, endTime := some s.time },
          time := s.time + 1 } := by
      simp [closeConversation, getConversation, hc]
    rw [hsnd]
    refine ⟨?_, ?_, ?_, ?_⟩
    · intro cid' conv' hc'
      dsimp only at hc' ⊢
      by_cases hx : cid' = cid
      · subst hx
        rw [alookup_aset_self] at hc'
        have he := Option.some.inj hc'
        subst he
        exact ⟨hid, hlt⟩
      · rw [alookup_aset_ne _ _ hx] at hc'
        exact hck cid' conv' hc'
    · intro u l hl cid' hm
      exact hub u l hl cid' hm
    · intro u l hl cid' hm
      dsimp only at hl ⊢
      obtain ⟨conv0, hcv, hcu⟩ := huo u l hl cid' hm
      by_cases hx : cid' = cid
      · subst hx
        have hconv : conv = conv0 := by
          rw [hc] at hcv
          exact Option.some.inj hcv
        refine ⟨_, alookup_aset_self _ _ _, ?_⟩
        show conv.userId = u
        rw [hconv]
        exact hcu
      · exact ⟨conv0, by rw [alookup_aset_ne _ _ hx]; exact hcv, hcu⟩
    · intro u l hl
      exact hus u l hl

theorem inv_getActive {s : Store} (h : StoreInv s) (u : Str) :
    StoreInv (getActiveConversation s u).2 := by
  cases hu : alookup s.userConversations u with
  | none =>
    have hs : (getActiveConversation s u).2 = (createConversation s u).2 := by
      simp [getActiveConversation, hu]
    rw [hs]
    exact inv_create h u
  | some l =>
    cases hf : findActive s l.reverse with
    | some conv =>
      have hs : (getActiveConversation s u).2 = s := by
        simp [getActiveConversation, hu, hf]
      rw [hs]
      exact h
    | none =>
      have hs : (getActiveConversation s u).2 = (createConversation s u).2 := by
        simp [getActiveConversation, hu, hf]
      rw [hs]
      exact inv_create h u

theorem inv_applyOp {s : Store} (h : StoreInv s) (op : StoreOp) :
    StoreInv (applyOp s op) := by
  cases op with
  | create u => exact inv_create h u
  | getActive u => exact inv_getActive h u
  | addMsg cid content sender => exact inv_addMessage h cid content sender
  | close cid => exact inv_close h cid
  | getUser u => exact h

theorem inv_runOps (ops : List StoreOp) :
    ∀ s, StoreInv s → StoreInv (runOps s ops) := by
  induction ops with
  | nil => intro s h; exact h
  | cons op t ih => intro s h; exact ih _ (inv_applyOp h op)

theorem filterMap_map_id {convs : List (Nat × Conversation)} :
    ∀ l : List Nat,
      (∀ cid ∈ l, ∃ conv, alookup convs cid = some conv ∧ conv.id = cid) →
      (l.filterMap (alookup convs)).map Conversation.id = l := by
  intro l
  induction l with
  | nil => intro _; rfl
  | cons a t ih =>
    intro h
    obtain ⟨conv, hc, hid⟩ := h a (List.mem_cons_self a t)
    have ht := ih (fun cid hm => h cid (List.mem_cons_of_mem a hm))
    rw [List.filterMap_cons, hc]
    simp only [List.map_cons, ht, hid]

/-- Claim C10: starting from the empty store, after any sequence of store
operations every id in a user's conversation list resolves to a conversation
owned by that user, `get_active_conversation` always returns an active
conversation owned by the queried user, and `get_user_conversations` returns
only that user's conversations, in creation order (strictly increasing
creation ids). -/
theorem c10_referential_integrity (ops : List StoreOp) :
    (∀ u l, alookup (runOps emptyStore ops).userConversations u = some l →
      ∀ cid ∈ l, ∃ conv,
        alookup (runOps emptyStore ops).conversations cid = some conv ∧
        conv.userId = u) ∧
    (∀ u, (getActiveConversation (runOps emptyStore ops) u).1.userId = u ∧
      (getActiveConversation (runOps emptyStore ops) u).1.status =
        ConvStatus.active) ∧
    (∀ u conv, conv ∈ getUserConversations (runOps emptyStore ops) u →
      conv.userId = u) ∧
    (∀ u, ((getUserConversations (runOps emptyStore ops) u).map
      Conversation.id).Chain' (· < ·)) := by
  obtain ⟨hck, hub, huo, hus⟩ := inv_runOps ops emptyStore inv_empty
  refine ⟨fun u l hl cid hm => huo u l hl cid hm, ?_, ?_, ?_⟩
  · intro u
    cases hu : alookup (runOps emptyStore ops).userConversations u with
    | none =>
      constructor <;> simp [getActiveConversation, hu, createConversation]
    | some l =>
      cases hf : findActive (runOps emptyStore ops) l.reverse with
      | none =>
        constructor <;>
          simp [getActiveConversation, hu, hf, createConversation]
      | some conv =>
        obtain ⟨hst, cid, hmem, hcv⟩ := findActive_some hf
        obtain ⟨conv0, hcv0, hcu0⟩ :=
          huo u l hu cid (List.mem_reverse.mp hmem)
        have hconv : conv = conv0 := by
          rw [hcv] at hcv0
          exact Option.some.inj hcv0
        constructor
        · simp only [getActiveConversation, hu, hf]
          rw [hconv]
          exact hcu0
        · simp only [getActiveConversation, hu, hf]
          exact hst
  · intro u conv hm
    cases hu : alookup (runOps emptyStore ops).userConversations u with
    | none => simp [getUserConversations, hu] at hm
    | some l =>
      simp only [getUserConversations, hu] at hm
      rw [List.mem_filterMap] at hm
      obtain ⟨cid, hcl, hcv⟩ := hm
      obtain ⟨conv0, hcv0, hcu0⟩ := huo u l hu cid hcl
      rw [hcv] at hcv0
      rw [Option.some.inj hcv0]
      exact hcu0
  · intro u
    cases hu : alookup (runOps emptyStore ops).userConversations u with
    | none => simp [getUserConversations, hu]
    | some l =>
      simp only [getUserConversations, hu]
      have hmem : ∀ cid ∈ l, ∃ conv,
          alookup (runOps emptyStore ops).conversations cid = some conv ∧
          conv.id = cid := by
        intro cid hm
        obtain ⟨conv0, hcv0, _⟩ := huo u l hu cid hm
        exact ⟨conv0, hcv0, (hck cid conv0 hcv0).1⟩
      rw [filterMap_map_id l hmem]
      exact hus u l hu

/-- Concrete instance of `c10_referential_integrity`. -/
theorem c10_witness :
    ∃ conv,
      alookup (runOps emptyStore [StoreOp.create "u".data]).conversations 0 =
        some conv ∧ conv.userId = "u".data :=
  (c10_referential_integrity [StoreOp.create "u".data]).1 "u".data [0]
    (by decide) 0 (by decide)

/-- Claim C4, counterexample: two direct `create_conversation` calls for the
same user leave that user with two conversations of status active — the
store never closes the previous active conversation. -/
theorem c4_counterexample :
    ¬ AtMostOneActive (runOps emptyStore
      [StoreOp.create "u".data, StoreOp.create "u".data]) :=
  fun h => absurd (h "u".data [0, 1] (by decide)) (by decide)

/-- Claim C4 (amended to exclude direct `create_conversation` calls): every
other store operation — `get_active_conversation` (including its internal
lazy creation), `add_message`, `close_conversation`,
`get_user_conversations` — preserves the at-most-one-active-conversation-
per-user property. -/
theorem c4_preserved (s : Store) (op : StoreOp) (hinv : StoreInv s)
    (hone : AtMostOneActive s) (hop : ∀ u, op ≠ StoreOp.create u) :
    AtMostOneActive (applyOp s op) := by
  obtain ⟨hck, hub, huo, hus⟩ := hinv
  cases op with
  | create u => exact absurd rfl (hop u)
  | getUser u => exact hone
  | addMsg cid content sender =>
    cases hc : alookup s.conversations cid with
    | none =>
      have hs : applyOp s (StoreOp.addMsg cid content sender) = s := by
        simp [applyOp, addMessage, getConversation, hc]
      rw [hs]
      exact hone
    | some conv =>
      intro u l hl
      have huc : (applyOp s (StoreOp.addMsg cid content sender)).userConversations
          = s.userConversations := by
        simp [applyOp, addMessage, getConversation, hc]
      rw [huc] at hl
      have hfe : l.filter (isActiveConv (applyOp s (StoreOp.addMsg cid content sender)))
          = l.filter (isActiveConv s) := by
        apply filter_congr_mem
        intro x hx
        by_cases hxc : x = cid
        · subst hxc
          simp [isActiveConv, applyOp, addMessage, getConversation, hc,
            alookup_aset_self]
        · simp [isActiveConv, applyOp, addMessage, getConversation, hc,
            alookup_aset_ne _ _ hxc]
      rw [hfe]
      exact hone u l hl
  | close cid =>
    cases hc : alookup s.conversations cid with
    | none =>
      have hs : applyOp s (StoreOp.close cid) = s := by
        simp [applyOp, closeConversation, getConversation, hc]
      rw [hs]
      exact hone
    | some conv =>
      intro u l hl
      have huc : (applyOp s (StoreOp.close cid)).userConversations
          = s.userConversations := by
        simp [applyOp, closeConversation, getConversation, hc]
      rw [huc] at hl
      refine Nat.le_trans (length_filter_le_of_imp ?_) (hone u l hl)
      intro x hx hpx
      by_cases hxc : x = cid
      · subst hxc
        exfalso
        simp [isActiveConv, applyOp, closeConversation, getConversation, hc,
          alookup_aset_self] at hpx
      · have hpe : isActiveConv (applyOp s (StoreOp.close cid)) x
            = isActiveConv s x := by
          simp [isActiveConv, applyOp, closeConversation, getConversation, hc,
            alookup_aset_ne _ _ hxc]
        rw [hpe] at hpx
        exact hpx
  | getActive u =>
    cases hu : alookup s.userConversations u with
    | some l =>
      cases hf : findActive s l.reverse with
      | some conv =>
        have hs : applyOp s (StoreOp.getActive u) = s := by
          simp [applyOp, getActiveConversation, hu, hf]
        rw [hs]
        exact hone
      | none =>
        have hs : applyOp s (StoreOp.getActive u)
            = (createConversation s u).2 := by
          simp [applyOp, getActiveConversation, hu, hf]
        rw [hs]
        have hpres : ∀ x, x < s.nextId →
            isActiveConv (createConversation s u).2 x = isActiveConv s x := by
          intro x hxlt
          rw [createConversation_snd]
          simp [isActiveConv, alookup_aset_ne _ _ (Nat.ne_of_lt hxlt)]
        intro u' l' hl'
        by_cases hu' : u' = u
        · subst hu'
          rw [createConversation_snd] at hl'
          dsimp only at hl'
          rw [alookup_aset_self] at hl'
          have he := Option.some.inj hl'
          subst he
          rw [hu]
          simp only [Option.getD_some]
          rw [List.filter_append]
          have hl0 : l.filter (isActiveConv (createConversation s u').2) = [] := by
            apply filter_eq_nil_of_false
            intro x hx
            rw [hpres x (hub _ _ hu x hx)]
            exact findActive_none hf x (List.mem_reverse.mpr hx)
          have hnew : isActiveConv (createConversation s u').2 s.nextId = true := by
            rw [createConversation_snd]
            simp [isActiveConv, alookup_aset_self, createConversation_fst]
          rw [hl0]
          simp [hnew]
        · rw [createConversation_snd] at hl'
          dsimp only at hl'
          rw [alookup_aset_ne _ _ hu'] at hl'
          have hfe : l'.filter (isActiveConv (createConversation s u).2)
              = l'.filter (isActiveConv s) := by
            apply filter_congr_mem
            intro x hx
            exact hpres x (hub _ _ hl' x hx)
          rw [hfe]
          exact hone u' l' hl'
    | none =>
      have hs : applyOp s (StoreOp.getActive u)
          = (createConversation s u).2 := by
        simp [applyOp, getActiveConversation, hu]
      rw [hs]
      have hpres : ∀ x, x < s.nextId →
          isActiveConv (createConversation s u).2 x = isActiveConv s x := by
        intro x hxlt
        rw [createConversation_snd]
        simp [isActiveConv, alookup_aset_ne _ _ (Nat.ne_of_lt hxlt)]
      intro u' l' hl'
      by_cases hu' : u' = u
      · subst hu'
        rw [createConversation_snd] at hl'
        dsimp only at hl'
        rw [alookup_aset_self] at hl'
        have he := Option.some.inj hl'
        subst he
        rw [hu]
        simp only [Option.getD_none, List.nil_append]
        have hnew : isActiveConv (createConversation s u').2 s.nextId = true := by
          rw [createConversation_snd]
          simp [isActiveConv, alookup_aset_self, createConversation_fst]
        simp [hnew]
      · rw [createConversation_snd] at hl'
        dsimp only at hl'
        rw [alookup_aset_ne _ _ hu'] at hl'
        have hfe : l'.filter (isActiveConv (createConversation s u).2)
            = l'.filter (isActiveConv s) := by
          apply filter_congr_mem
          intro x hx
          exact hpres x (hub _ _ hl' x hx)
        rw [hfe]
        exact hone u' l' hl'

/-- Concrete instance of `c4_preserved`. -/
theorem c4_witness :
    AtMostOneActive (applyOp emptyStore (StoreOp.getActive "u".data)) :=
  c4_preserved emptyStore (StoreOp.getActive "u".data) inv_empty
    (fun u l h => by simp [emptyStore, alookup] at h)
    (fun u h => StoreOp.noConfusion h)
